import Mathlib

/-!
Shallow embedding of the dive-log application's marker reconciler and
service helpers, translated from the TypeScript source:

* `DiveLogForm.tsx` — the `DiveMap` component: the `createMarkerContent`
  closure, the dive-logs reconciliation effect and the selected-dive
  effect;
* `maps.ts` — `createBounds`;
* `firestore.ts` — `deleteDiveLog`, `getDiveLogs`, `getRecentDiveLogs`;
* `storage.ts` — `deletePhoto`, `validateImageFile`, `validateImageFiles`.

Coordinates are modelled as rationals, Firestore timestamps as naturals.
Fields of `DiveLog` that none of the modelled operations read
(description, date, user, tags, depth, duration, visibility, waterTemp)
are omitted; the operations below never look at them.
-/

/-- Geographic position, the `{lat, lng}` literal used by the map SDK. -/
structure Location where
  lat : Rat
  lng : Rat
deriving DecidableEq, Repr

/-- The `location` field of a dive log (`lat`, `lng`, `name`, optional address). -/
structure DiveLocation where
  lat : Rat
  lng : Rat
  locName : String
deriving DecidableEq, Repr

/-- A photo attached to a dive log (`DivePhoto` in `types/index.ts`):
`id` is the storage path component, `url` the download URL. -/
structure DivePhoto where
  id : String
  url : String
deriving DecidableEq, Repr

/-- A dive log record (`DiveLog` in `types/index.ts`), restricted to the
fields the modelled operations read. `createdAt` is the Firestore
creation timestamp used for ordering. -/
structure DiveLog where
  id : String
  title : String
  location : DiveLocation
  photos : List DivePhoto
  createdAt : Nat
deriving DecidableEq, Repr

/- ===================== Marker visuals ===================== -/

/-- The inner content of a marker element: either a circular thumbnail of
the first photo (with an optional numeric photo-count badge) or the
default gradient icon badge, from the two branches of
`createMarkerContent` in `DiveLogForm.tsx`. -/
inductive MarkerBody where
  | thumbnail (firstPhotoUrl : String) (badgeCount : Option Nat)
  | defaultIcon
deriving DecidableEq, Repr

/-- The visual descriptor a call of `createMarkerContent` produces:
the container's size, border width and border colour, whether the extra
highlight ring box-shadow is present, and the body content. -/
structure MarkerVisual where
  size : Nat
  borderWidth : Nat
  borderColor : String
  highlightRing : Bool
  body : MarkerBody
deriving DecidableEq, Repr

/-- Translation of `createMarkerContent` (`DiveLogForm.tsx:544-617`):
`size = isSelected ? 60 : 50`, `borderWidth = isSelected ? 4 : 3`,
border colour `#EF4444` when selected else `#FFFFFF`, the highlight-ring
box-shadow only when selected; if the record has photos the body is a
thumbnail of `photos[0].url` with a count badge exactly when
`photos.length > 1`, otherwise the default icon. -/
def createMarkerContent (diveLog : DiveLog) (isSelected : Bool) : MarkerVisual :=
  { size := if isSelected then 60 else 50
    borderWidth := if isSelected then 4 else 3
    borderColor := if isSelected then "#EF4444" else "#FFFFFF"
    highlightRing := isSelected
    body :=
      match diveLog.photos.head? with
      | some p =>
          MarkerBody.thumbnail p.url
            (if diveLog.photos.length > 1 then some diveLog.photos.length else none)
      | none => MarkerBody.defaultIcon }

/-- A visual is in the selected style when it has the selected variant's
size and border colour. -/
def MarkerVisual.isSelectedStyle (v : MarkerVisual) : Bool :=
  v.size == 60 && v.borderColor == "#EF4444"

/- ===================== Bounds ===================== -/

/-- A non-empty latitude/longitude rectangle, the state of a
`google.maps.LatLngBounds` after at least one `extend`. -/
structure LatLngBounds where
  south : Rat
  north : Rat
  west : Rat
  east : Rat
deriving DecidableEq, Repr

/-- `LatLngBounds.extend` on a non-empty bounds: grow the rectangle to
include the point. -/
def boundsExtend (b : LatLngBounds) (p : Location) : LatLngBounds :=
  { south := min b.south p.lat
    north := max b.north p.lat
    west := min b.west p.lng
    east := max b.east p.lng }

/-- One `bounds.extend(pos)` step starting from a possibly-empty bounds:
the first point initialises the rectangle to a single point. -/
def boundsStep (acc : Option LatLngBounds) (p : Location) : Option LatLngBounds :=
  match acc with
  | none => some { south := p.lat, north := p.lat, west := p.lng, east := p.lng }
  | some b => some (boundsExtend b p)

/-- Translation of `createBounds` (`maps.ts`): `null` for an empty
position list, otherwise a fresh bounds extended by every position in
order. -/
def createBounds (positions : List Location) : Option LatLngBounds :=
  if positions.length = 0 then none
  else positions.foldl boundsStep none

/-- The rectangle contains the point. -/
def LatLngBounds.covers (b : LatLngBounds) (p : Location) : Prop :=
  b.south ≤ p.lat ∧ p.lat ≤ b.north ∧ b.west ≤ p.lng ∧ p.lng ≤ b.east

instance (b : LatLngBounds) (p : Location) : Decidable (b.covers p) := by
  unfold LatLngBounds.covers
  infer_instance

/- ===================== Map state and reconciler ===================== -/

/-- One live `AdvancedMarkerElement`. `handle` is a creation stamp
distinguishing marker objects; `record` is the dive log captured by the
marker's `updateContent` closure; `content` is the current visual. -/
structure Marker where
  handle : Nat
  position : Location
  title : String
  record : DiveLog
  content : MarkerVisual
deriving DecidableEq, Repr

/-- Commands the component issues to the map surface. -/
inductive MapCmd where
  | fitBounds (b : LatLngBounds)
  | setZoom (z : Nat)
  | panTo (p : Location)
deriving DecidableEq, Repr

/-- The `DiveMap` component's mutable state: the fresh-handle counter,
`markersRef.current` as an association list keyed by dive-log id, the map
surface's current zoom, and the log of issued surface commands. -/
structure MapState where
  nextHandle : Nat
  markers : List (String × Marker)
  zoom : Nat
  commands : List MapCmd
deriving DecidableEq, Repr

/-- A `DiveMap` state before any effect has run: zoom 6 is the initial
`google.maps.Map` zoom option. -/
def initialMapState : MapState :=
  { nextHandle := 0, markers := [], zoom := 6, commands := [] }

/-- JavaScript object property assignment `obj[k] = v` on an association
list: overwrite an existing key in place, otherwise append. -/
def objSet (m : List (String × Marker)) (k : String) (v : Marker) :
    List (String × Marker) :=
  match m with
  | [] => [(k, v)]
  | (k', v') :: rest => if k' = k then (k, v) :: rest else (k', v') :: objSet rest k v

/-- JavaScript object property read `obj[k]`. -/
def objGet (m : List (String × Marker)) (k : String) : Option Marker :=
  match m with
  | [] => none
  | (k', v) :: rest => if k' = k then some v else objGet rest k

/-- Translation of `createMarker` (`DiveLogForm.tsx:540-641`) on a live
map: a fresh marker at the record's location, titled by the record, with
content `createMarkerContent(false)`, carrying the record for its
`updateContent` closure. -/
def createMarker (handle : Nat) (diveLog : DiveLog) : Marker :=
  { handle := handle
    position := { lat := diveLog.location.lat, lng := diveLog.location.lng }
    title := diveLog.title
    record := diveLog
    content := createMarkerContent diveLog false }

/-- The `diveLogs.forEach` creation loop: create a marker per record and
store it in `markersRef.current[diveLog.id]`, threading the handle
counter. -/
def addAll (ms : List (String × Marker)) (handle : Nat) :
    List DiveLog → List (String × Marker) × Nat
  | [] => (ms, handle)
  | d :: ds => addAll (objSet ms d.id (createMarker handle d)) (handle + 1) ds

/-- Translation of the dive-logs reconciliation effect
(`DiveLogForm.tsx:711-744`) on an initialised map: detach every existing
marker and reset `markersRef.current` to `{}`, recreate a marker for each
record, and for a non-empty list fit the map to the bounds of all
positions; the `bounds_changed` listener then clamps the zoom to 15 if
the zoom `fitBounds` produced (`sdkZoom`, truthy and greater than 15)
exceeds it. -/
def reconcile (s : MapState) (diveLogs : List DiveLog) (sdkZoom : Nat) : MapState :=
  let created := addAll [] s.nextHandle diveLogs
  if diveLogs.length > 0 then
    match createBounds (diveLogs.map (fun d => Location.mk d.location.lat d.location.lng)) with
    | some b =>
        if sdkZoom != 0 && sdkZoom > 15 then
          { nextHandle := created.2, markers := created.1, zoom := 15
            commands := s.commands ++ [MapCmd.fitBounds b, MapCmd.setZoom 15] }
        else
          { nextHandle := created.2, markers := created.1, zoom := sdkZoom
            commands := s.commands ++ [MapCmd.fitBounds b] }
    | none =>
        { nextHandle := created.2, markers := created.1, zoom := s.zoom
          commands := s.commands }
  else
    { nextHandle := created.2, markers := created.1, zoom := s.zoom
      commands := s.commands }

/-- JavaScript truthiness of the optional `selectedDiveId` prop. -/
def idTruthy (sel : Option String) : Bool :=
  match sel with
  | none => false
  | some s => s != ""

/-- Translation of the selected-dive effect (`DiveLogForm.tsx:747-769`):
regenerate every marker's content via its `updateContent` closure with
`isSelected = (id === selectedDiveId)`, then, when `selectedDiveId` is
truthy and a marker for it exists, pan the map to that marker's
position. -/
def setSelected (s : MapState) (sel : Option String) : MapState :=
  let markers := s.markers.map fun p =>
    (p.1, { p.2 with content := createMarkerContent p.2.record (some p.1 == sel) })
  if idTruthy sel then
    match sel with
    | some sid =>
        match objGet markers sid with
        | some m =>
            { s with markers := markers, commands := s.commands ++ [MapCmd.panTo m.position] }
        | none => { s with markers := markers }
    | none => { s with markers := markers }
  else
    { s with markers := markers }

/- ===================== Firestore / Storage services ===================== -/

/-- The two external stores `deleteDiveLog` touches: the `diveLogs`
Firestore collection as an association list from document id to record,
and the set of photo blob ids present under `dive-photos/` in Storage. -/
structure Backend where
  docs : List (String × DiveLog)
  blobs : List String
deriving DecidableEq, Repr

/-- Translation of `deletePhoto` (`storage.ts`): `deleteObject` on
`dive-photos/{photoId}` removes the blob, and rejects (surfaced as
`Failed to delete photo`) when no such object exists. -/
def deletePhoto (b : Backend) (photoId : String) : Except String Backend :=
  if photoId ∈ b.blobs then Except.ok { b with blobs := b.blobs.erase photoId }
  else Except.error "Failed to delete photo"

/-- The `Promise.all(diveLog.photos.map(photo => deletePhoto(photo.id)))`
step, modelled sequentially: every deletion must succeed. -/
def deletePhotos (b : Backend) : List DivePhoto → Except String Backend
  | [] => Except.ok b
  | p :: ps =>
    match deletePhoto b p.id with
    | Except.ok b' => deletePhotos b' ps
    | Except.error e => Except.error e

/-- Firestore document delete `deleteDoc(doc(db, DIVE_LOGS, id))`. -/
def deleteDoc (b : Backend) (id : String) : Backend :=
  { b with docs := b.docs.filter fun p => p.1 ≠ id }

/-- `getDiveLog` on a reachable backend: document lookup by id. -/
def objGetDoc : List (String × DiveLog) → String → Option DiveLog
  | [], _ => none
  | (k, v) :: rest, k' => if k = k' then some v else objGetDoc rest k'

/-- Translation of `deleteDiveLog` (`firestore.ts:230-252`): fetch the
record; if it exists and has photos, delete every photo blob from
Storage first; then delete the Firestore document. A failure while
deleting blobs propagates and the document is not deleted. -/
def deleteDiveLog (b : Backend) (id : String) : Except String Backend :=
  match objGetDoc b.docs id with
  | some d =>
      match (if d.photos.length > 0 then deletePhotos b d.photos else Except.ok b) with
      | Except.ok b' => Except.ok (deleteDoc b' id)
      | Except.error e => Except.error e
  | none => Except.ok (deleteDoc b id)

/-- The Firestore query `orderBy('createdAt', 'desc')` on the collection
contents: sort by creation timestamp, newest first. -/
def sortByCreatedAtDesc (docs : List DiveLog) : List DiveLog :=
  docs.insertionSort fun a b => b.createdAt ≤ a.createdAt

/-- Translation of `getDiveLogs` (`firestore.ts:162-186`) for the
all-users query: the backend either fails the query (`fail = true`), in
which case the error is rethrown to the caller, or yields the collection
ordered by `createdAt` descending. -/
def getDiveLogs (docs : List DiveLog) (fail : Bool) : Except String (List DiveLog) :=
  if fail then Except.error "Error getting dive logs"
  else Except.ok (sortByCreatedAtDesc docs)

/-- Translation of `getRecentDiveLogs` (`firestore.ts:255-279`): on a
query error the catch block returns `[]`; otherwise the snapshot ordered
by `createdAt` descending is returned, truncated by
`slice(0, limitCount)` (the parameter defaults to 50). -/
def getRecentDiveLogs (docs : List DiveLog) (fail : Bool) (limitCount : Nat) :
    List DiveLog :=
  if fail then []
  else
    let diveLogs := sortByCreatedAtDesc docs
    if diveLogs.isEmpty then [] else diveLogs.take limitCount

/- ===================== File validation ===================== -/

/-- The fields of a browser `File` that validation reads: MIME type and
byte size (plus the name, which validation ignores). -/
structure JsFile where
  name : String
  type : String
  size : Nat
deriving DecidableEq, Repr

/-- Result shape of `validateImageFile`. -/
structure ValidationResult where
  isValid : Bool
  error : Option String
deriving DecidableEq, Repr

/-- Result shape of `validateImageFiles`. -/
structure MultiValidationResult where
  isValid : Bool
  errors : List String
deriving DecidableEq, Repr

/-- The `allowedTypes` list in `validateImageFile`. -/
def allowedTypes : List String := ["image/jpeg", "image/png", "image/webp"]

/-- Translation of `validateImageFile` (`storage.ts:420-440`): reject a
MIME type outside `allowedTypes`, then reject `size > 10 * 1024 * 1024`,
otherwise accept. -/
def validateImageFile (file : JsFile) : ValidationResult :=
  if !(allowedTypes.contains file.type) then
    { isValid := false, error := some "Only JPEG, PNG, and WebP images are allowed" }
  else if file.size > 10 * 1024 * 1024 then
    { isValid := false, error := some "File size must be less than 10MB" }
  else
    { isValid := true, error := none }

/-- The indexed error-collecting loop of `validateImageFiles`: one
`File {i+1}: {error}` entry per invalid file, in order. -/
def collectImageFileErrors : Nat → List JsFile → List String
  | _, [] => []
  | i, f :: fs =>
    let v := validateImageFile f
    if v.isValid then collectImageFileErrors (i + 1) fs
    else ("File " ++ toString (i + 1) ++ ": " ++ v.error.getD "") :: collectImageFileErrors (i + 1) fs

/-- Translation of `validateImageFiles` (`storage.ts:443-457`). -/
def validateImageFiles (files : List JsFile) : MultiValidationResult :=
  let errors := collectImageFileErrors 0 files
  { isValid := errors.length == 0, errors := errors }

/- ===================== Sample records ===================== -/

/-- The single photo of the spec's example record `b`. -/
def photoP1 : DivePhoto := { id := "p1", url := "p1" }

/-- The spec's example record `a`: id `a` at (10, 10) with no photos. -/
def recA : DiveLog :=
  { id := "a", title := "a", location := { lat := 10, lng := 10, locName := "A" },
    photos := [], createdAt := 1 }

/-- The spec's example record `b`: id `b` at (20, 20) with one photo. -/
def recB : DiveLog :=
  { id := "b", title := "b", location := { lat := 20, lng := 20, locName := "B" },
    photos := [photoP1], createdAt := 2 }

/- ===================== Validation lemmas (C10) ===================== -/

theorem validateImageFile_isValid_iff (f : JsFile) :
    (validateImageFile f).isValid = true ↔
      (f.type ∈ allowedTypes ∧ f.size ≤ 10 * 1024 * 1024) := by
  unfold validateImageFile
  by_cases hc : f.type ∈ allowedTypes
  · have hc' : allowedTypes.contains f.type = true := by simpa using hc
    by_cases hs : 10 * 1024 * 1024 < f.size
    · simp [hc', hc, hs]
    · simp [hc', hc, hs]
      omega
  · have hc' : allowedTypes.contains f.type = false := by simpa using hc
    simp [hc', hc]

theorem collectImageFileErrors_length : ∀ (i : Nat) (fs : List JsFile),
    (collectImageFileErrors i fs).length =
      (fs.filter fun f => !(validateImageFile f).isValid).length
  | _, [] => rfl
  | i, f :: fs => by
    cases h : (validateImageFile f).isValid <;>
      simp [collectImageFileErrors, List.filter_cons, h,
        collectImageFileErrors_length (i + 1) fs]

theorem validateImageFiles_isValid_iff (fs : List JsFile) :
    (validateImageFiles fs).isValid = true ↔
      ∀ f ∈ fs, (validateImageFile f).isValid = true := by
  unfold validateImageFiles
  simp only [beq_iff_eq, collectImageFileErrors_length 0 fs, List.length_eq_zero,
    List.filter_eq_nil_iff, Bool.not_eq_true', Bool.not_eq_false]

/-- Claim C10: `validateImageFile(file)` returns `isValid = true` exactly
when the file's MIME type is one of `image/jpeg`, `image/png`,
`image/webp` and its size does not exceed `10 * 1024 * 1024` bytes (a
file of exactly 10 MiB is accepted, only strictly greater sizes are
rejected), and `validateImageFiles(files)` returns `isValid = true`
exactly when every file is individually valid, collecting one error
message per invalid file. -/
theorem validateImage_spec :
    (∀ f : JsFile, (validateImageFile f).isValid = true ↔
        (f.type ∈ allowedTypes ∧ f.size ≤ 10 * 1024 * 1024)) ∧
    (validateImageFile { name := "x", type := "image/png", size := 10 * 1024 * 1024 }).isValid
        = true ∧
    (∀ fs : List JsFile,
        ((validateImageFiles fs).isValid = true ↔
            ∀ f ∈ fs, (validateImageFile f).isValid = true) ∧
        (validateImageFiles fs).errors.length =
          (fs.filter fun f => !(validateImageFile f).isValid).length) :=
  ⟨validateImageFile_isValid_iff, by decide,
    fun fs => ⟨validateImageFiles_isValid_iff fs, collectImageFileErrors_length 0 fs⟩⟩

/-- Witness for C10 at concrete files: a 10 MiB PNG is valid, an
oversized JPEG and a GIF are not, and a mixed list collects exactly the
two error messages. -/
theorem validateImage_spec_witness :
    (validateImageFile { name := "x", type := "image/png", size := 10 * 1024 * 1024 }).isValid
        = true ∧
    ¬ (validateImageFile { name := "y", type := "image/jpeg", size := 10 * 1024 * 1024 + 1 }).isValid
        = true ∧
    ¬ (validateImageFiles
        [{ name := "x", type := "image/png", size := 4 },
         { name := "z", type := "image/gif", size := 4 }]).isValid = true ∧
    (validateImageFiles
        [{ name := "x", type := "image/png", size := 4 },
         { name := "z", type := "image/gif", size := 4 }]).errors.length = 1 := by
  refine ⟨(validateImage_spec.1 _).mpr (by decide), ?_, ?_, ?_⟩
  · intro h
    have := (validateImage_spec.1 _).mp h
    simp [allowedTypes] at this
  · intro h
    have := ((validateImage_spec.2.2 _).1).mp h
      { name := "z", type := "image/gif", size := 4 } (by decide)
    simp [validateImageFile, allowedTypes] at this
  · have := (validateImage_spec.2.2
      [{ name := "x", type := "image/png", size := 4 },
       { name := "z", type := "image/gif", size := 4 }]).2
    simpa [validateImageFile, allowedTypes, List.filter] using this

/- ===================== Marker visual spec (C4) ===================== -/

/-- Claim C4: `createMarkerContent` is a deterministic, side-effect-free
function of the record and the selected flag (it is a pure Lean function
here): a record with at least one photo yields a circular thumbnail of
the first photo carrying a numeric count badge exactly when the record
has more than one photo; a record with no photos yields the default
iconized badge; the selected variant is larger (60 vs 50) with a distinct
border colour (`#EF4444` vs `#FFFFFF`) than the unselected variant. -/
theorem createMarkerContent_spec (d : DiveLog) (isSel : Bool) :
    (∀ p ps, d.photos = p :: ps →
        (createMarkerContent d isSel).body =
          MarkerBody.thumbnail p.url
            (if d.photos.length > 1 then some d.photos.length else none)) ∧
    (d.photos = [] → (createMarkerContent d isSel).body = MarkerBody.defaultIcon) ∧
    (createMarkerContent d true).size = 60 ∧
    (createMarkerContent d false).size = 50 ∧
    (createMarkerContent d true).borderColor = "#EF4444" ∧
    (createMarkerContent d false).borderColor = "#FFFFFF" := by
  refine ⟨?_, ?_, rfl, rfl, rfl, rfl⟩
  · intro p ps hp
    simp [createMarkerContent, hp]
  · intro hp
    simp [createMarkerContent, hp]

/-- Witness for C4 at the spec's example records: `a` (no photos) gets
the default badge, `b` (one photo) gets a thumbnail with no count
overlay. -/
theorem createMarkerContent_spec_witness :
    (createMarkerContent recA false).body = MarkerBody.defaultIcon ∧
    (createMarkerContent recB false).body = MarkerBody.thumbnail "p1" none := by
  constructor
  · exact (createMarkerContent_spec recA false).2.1 rfl
  · have h := (createMarkerContent_spec recB false).1 photoP1 [] rfl
    simpa [recB, photoP1] using h

/- ===================== Query spec (C9) ===================== -/

instance : IsTotal DiveLog fun a b => b.createdAt ≤ a.createdAt :=
  ⟨fun a b => Or.symm (Nat.le_total a.createdAt b.createdAt)⟩

instance : IsTrans DiveLog fun a b => b.createdAt ≤ a.createdAt :=
  ⟨fun _ _ _ hab hbc => Nat.le_trans hbc hab⟩

theorem sortByCreatedAtDesc_sorted (docs : List DiveLog) :
    (sortByCreatedAtDesc docs).Pairwise fun a b => b.createdAt ≤ a.createdAt :=
  List.sorted_insertionSort _ docs

/-- Claim C9: `getRecentDiveLogs` never throws — on a backend query error
it returns the empty list while `getDiveLogs` propagates the error to its
caller — and on success it returns at most `limitCount` records (default
50), ordered by creation time descending. (The Firestore backend is
modelled by the collection contents plus a query-failure flag; the query
with `orderBy('createdAt', 'desc')` yields the contents sorted by
`createdAt` descending.) -/
theorem getRecentDiveLogs_spec (docs : List DiveLog) (limitCount : Nat) :
    getRecentDiveLogs docs true limitCount = [] ∧
    getDiveLogs docs true = Except.error "Error getting dive logs" ∧
    (getRecentDiveLogs docs false limitCount).length ≤ limitCount ∧
    (getRecentDiveLogs docs false 50).length ≤ 50 ∧
    (getRecentDiveLogs docs false limitCount).Pairwise
      (fun a b => b.createdAt ≤ a.createdAt) := by
  have hlen : ∀ n : Nat, (getRecentDiveLogs docs false n).length ≤ n := by
    intro n
    unfold getRecentDiveLogs
    by_cases he : (sortByCreatedAtDesc docs).isEmpty <;> simp [he]
  refine ⟨rfl, rfl, hlen limitCount, hlen 50, ?_⟩
  unfold getRecentDiveLogs
  by_cases he : (sortByCreatedAtDesc docs).isEmpty <;> simp [he]
  exact ((sortByCreatedAtDesc_sorted docs).sublist
    (List.take_sublist limitCount _))

/- ===================== Association-list lemmas ===================== -/

theorem mem_keys_objSet : ∀ (m : List (String × Marker)) (k : String) (v : Marker)
    (x : String),
    x ∈ (objSet m k v).map Prod.fst ↔ x = k ∨ x ∈ m.map Prod.fst
  | [], k, v, x => by simp [objSet]
  | (k', v') :: rest, k, v, x => by
    by_cases h : k' = k
    · subst h
      simp [objSet]
    · simp only [objSet, if_neg h, List.map_cons, List.mem_cons,
        mem_keys_objSet rest k v x]
      tauto

theorem keys_nodup_objSet : ∀ (m : List (String × Marker)) (k : String) (v : Marker),
    (m.map Prod.fst).Nodup → ((objSet m k v).map Prod.fst).Nodup
  | [], k, v, _ => by simp [objSet]
  | (k', v') :: rest, k, v, h => by
    simp only [List.map_cons, List.nodup_cons] at h
    by_cases hk : k' = k
    · subst hk
      simp only [objSet, eq_self_iff_true, if_true, List.map_cons, List.nodup_cons]
      exact h
    · simp only [objSet, if_neg hk, List.map_cons, List.nodup_cons]
      refine ⟨?_, keys_nodup_objSet rest k v h.2⟩
      rw [mem_keys_objSet]
      rintro (rfl | hmem)
      · exact hk rfl
      · exact h.1 hmem

theorem mem_objSet_elim : ∀ (m : List (String × Marker)) (k : String) (v : Marker)
    (p : String × Marker), p ∈ objSet m k v → p = (k, v) ∨ p ∈ m
  | [], k, v, p, hp => by simpa [objSet] using hp
  | (k', v') :: rest, k, v, p, hp => by
    by_cases h : k' = k
    · rw [objSet, if_pos h] at hp
      rcases List.mem_cons.mp hp with h1 | h1
      · exact Or.inl h1
      · exact Or.inr (List.mem_cons_of_mem _ h1)
    · rw [objSet, if_neg h] at hp
      rcases List.mem_cons.mp hp with h1 | h1
      · exact Or.inr (by simp [h1])
      · rcases mem_objSet_elim rest k v p h1 with h2 | h2
        · exact Or.inl h2
        · exact Or.inr (List.mem_cons_of_mem _ h2)

theorem objGet_mem : ∀ (m : List (String × Marker)) (x : String) (mx : Marker),
    objGet m x = some mx → (x, mx) ∈ m
  | [], x, mx, h => by simp [objGet] at h
  | (k', v') :: rest, x, mx, h => by
    by_cases hk : k' = x
    · subst hk
      rw [objGet, if_pos rfl] at h
      cases h
      exact List.mem_cons_self _ _
    · rw [objGet, if_neg hk] at h
      exact List.mem_cons_of_mem _ (objGet_mem rest x mx h)

theorem objGet_eq_none_of_not_mem : ∀ (m : List (String × Marker)) (x : String),
    x ∉ m.map Prod.fst → objGet m x = none
  | [], x, _ => rfl
  | (k', v') :: rest, x, h => by
    simp only [List.map_cons, List.mem_cons, not_or] at h
    rw [objGet, if_neg (fun hk => h.1 hk.symm)]
    exact objGet_eq_none_of_not_mem rest x h.2

theorem objGet_isSome_of_mem_keys : ∀ (m : List (String × Marker)) (x : String),
    x ∈ m.map Prod.fst → ∃ mx, objGet m x = some mx
  | [], x, h => by simp at h
  | (k', v') :: rest, x, h => by
    by_cases hk : k' = x
    · exact ⟨v', by rw [objGet, if_pos hk]⟩
    · simp only [List.map_cons, List.mem_cons] at h
      rcases h with rfl | h
      · exact absurd rfl hk
      · obtain ⟨mx, hmx⟩ := objGet_isSome_of_mem_keys rest x h
        exact ⟨mx, by rw [objGet, if_neg hk, hmx]⟩

/- ===================== Creation-loop lemmas ===================== -/

theorem addAll_handle : ∀ (ms : List (String × Marker)) (h : Nat) (ds : List DiveLog),
    (addAll ms h ds).2 = h + ds.length
  | _, _, [] => rfl
  | ms, h, d :: ds => by
    rw [addAll, addAll_handle _ (h + 1) ds]
    simp only [List.length_cons]
    omega

theorem mem_keys_addAll : ∀ (ms : List (String × Marker)) (h : Nat) (ds : List DiveLog)
    (x : String),
    x ∈ (addAll ms h ds).1.map Prod.fst ↔ x ∈ ms.map Prod.fst ∨ x ∈ ds.map DiveLog.id
  | _, _, [], x => by simp [addAll]
  | ms, h, d :: ds, x => by
    rw [addAll, mem_keys_addAll _ (h + 1) ds x, mem_keys_objSet]
    simp only [List.map_cons, List.mem_cons]
    tauto

theorem keys_nodup_addAll : ∀ (ms : List (String × Marker)) (h : Nat) (ds : List DiveLog),
    (ms.map Prod.fst).Nodup → ((addAll ms h ds).1.map Prod.fst).Nodup
  | _, _, [], hnd => hnd
  | ms, h, d :: ds, hnd =>
    keys_nodup_addAll _ (h + 1) ds (keys_nodup_objSet ms d.id _ hnd)

theorem mem_addAll_elim : ∀ (ms : List (String × Marker)) (h : Nat) (ds : List DiveLog)
    (p : String × Marker), p ∈ (addAll ms h ds).1 →
      p ∈ ms ∨ ∃ i, i < ds.length ∧ ∃ d ∈ ds, p.2 = createMarker (h + i) d
  | _, _, [], p, hp => Or.inl hp
  | ms, h, d :: ds, p, hp => by
    rw [addAll] at hp
    rcases mem_addAll_elim _ (h + 1) ds p hp with h1 | h1
    · rcases mem_objSet_elim ms d.id _ p h1 with h2 | h2
      · refine Or.inr ⟨0, by simp, d, List.mem_cons_self _ _, ?_⟩
        simp [h2]
      · exact Or.inl h2
    · obtain ⟨i, hi, d', hd', hpd⟩ := h1
      refine Or.inr ⟨i + 1, by simpa using hi, d', List.mem_cons_of_mem _ hd', ?_⟩
      rw [hpd]
      congr 1
      omega

theorem addAll_content : ∀ (ms : List (String × Marker)) (h : Nat) (ds : List DiveLog),
    (∀ p ∈ ms, p.2.content = createMarkerContent p.2.record false) →
    ∀ p ∈ (addAll ms h ds).1, p.2.content = createMarkerContent p.2.record false
  | _, _, [], hc => hc
  | ms, h, d :: ds, hc => by
    rw [addAll]
    refine addAll_content _ (h + 1) ds ?_
    intro p hp
    rcases mem_objSet_elim ms d.id _ p hp with h1 | h1
    · simp [h1, createMarker]
    · exact hc p h1

/- ===================== Bounds lemmas ===================== -/

theorem foldl_boundsStep_some : ∀ (ps : List Location) (b : LatLngBounds),
    ps.foldl boundsStep (some b) = some (ps.foldl boundsExtend b)
  | [], _ => rfl
  | p :: ps, b => by
    rw [List.foldl_cons, List.foldl_cons]
    exact foldl_boundsStep_some ps (boundsExtend b p)

theorem covers_boundsExtend_self (b : LatLngBounds) (p : Location) :
    (boundsExtend b p).covers p :=
  ⟨min_le_right _ _, le_max_right _ _, min_le_right _ _, le_max_right _ _⟩

theorem covers_boundsExtend_mono (b : LatLngBounds) (p q : Location)
    (h : b.covers q) : (boundsExtend b p).covers q :=
  ⟨le_trans (min_le_left _ _) h.1, le_trans h.2.1 (le_max_left _ _),
   le_trans (min_le_left _ _) h.2.2.1, le_trans h.2.2.2 (le_max_left _ _)⟩

theorem foldl_boundsExtend_covers : ∀ (ps : List Location) (b : LatLngBounds),
    (∀ q, b.covers q → (ps.foldl boundsExtend b).covers q) ∧
    (∀ p ∈ ps, (ps.foldl boundsExtend b).covers p)
  | [], _ => ⟨fun _ h => h, by simp⟩
  | p :: ps, b => by
    rw [List.foldl_cons]
    obtain ⟨ih1, ih2⟩ := foldl_boundsExtend_covers ps (boundsExtend b p)
    refine ⟨fun q hq => ih1 q (covers_boundsExtend_mono b p q hq), ?_⟩
    intro p' hp'
    rcases List.mem_cons.mp hp' with rfl | hp'
    · exact ih1 p' (covers_boundsExtend_self b p')
    · exact ih2 p' hp'

theorem createBounds_cons (p : Location) (ps : List Location) :
    createBounds (p :: ps) = some (ps.foldl boundsExtend
      { south := p.lat, north := p.lat, west := p.lng, east := p.lng }) := by
  rw [createBounds, if_neg (by simp), List.foldl_cons]
  exact foldl_boundsStep_some ps _

theorem createBounds_covers (ps : List Location) (h : ps ≠ []) :
    ∃ b, createBounds ps = some b ∧ ∀ p ∈ ps, b.covers p := by
  match ps, h with
  | p :: ps, _ =>
    refine ⟨_, createBounds_cons p ps, ?_⟩
    obtain ⟨h1, h2⟩ := foldl_boundsExtend_covers ps
      { south := p.lat, north := p.lat, west := p.lng, east := p.lng }
    intro q hq
    rcases List.mem_cons.mp hq with rfl | hq
    · exact h1 q ⟨le_refl _, le_refl _, le_refl _, le_refl _⟩
    · exact h2 q hq

/- ===================== Reconcile shape lemmas ===================== -/

theorem reconcile_markers (s : MapState) (ds : List DiveLog) (z : Nat) :
    (reconcile s ds z).markers = (addAll [] s.nextHandle ds).1 := by
  unfold reconcile
  split
  · split <;> try rfl
    split <;> rfl
  · rfl

theorem reconcile_nextHandle (s : MapState) (ds : List DiveLog) (z : Nat) :
    (reconcile s ds z).nextHandle = s.nextHandle + ds.length := by
  unfold reconcile
  split
  · split
    · split <;> simp [addAll_handle]
    · simp [addAll_handle]
  · simp [addAll_handle]

theorem reconcile_nil (s : MapState) (z : Nat) :
    reconcile s [] z =
      { nextHandle := s.nextHandle, markers := [], zoom := s.zoom,
        commands := s.commands } := rfl

theorem reconcile_spec_of_ne_nil (s : MapState) (ds : List DiveLog) (z : Nat)
    (h : ds ≠ []) :
    ∃ b, createBounds (ds.map fun d => Location.mk d.location.lat d.location.lng) = some b ∧
      (∀ d ∈ ds, b.covers { lat := d.location.lat, lng := d.location.lng }) ∧
      (reconcile s ds z).commands = s.commands ++ MapCmd.fitBounds b ::
        (if z != 0 && z > 15 then [MapCmd.setZoom 15] else []) ∧
      (reconcile s ds z).zoom ≤ 15 := by
  obtain ⟨b, hb, hcov⟩ := createBounds_covers
    (ds.map fun d => Location.mk d.location.lat d.location.lng) (by simpa using h)
  refine ⟨b, hb, ?_, ?_⟩
  · intro d hd
    exact hcov _ (List.mem_map_of_mem _ hd)
  · have hlen : ds.length > 0 := List.length_pos.mpr h
    unfold reconcile
    rw [if_pos hlen, hb]
    dsimp only
    by_cases hz : (z != 0 && decide (z > 15)) = true
    · refine ⟨by simp [hz], by simp [hz]⟩
    · refine ⟨by simp [hz], ?_⟩
      rw [if_neg hz]
      simp only [Bool.and_eq_true, bne_iff_ne, ne_eq, decide_eq_true_eq, not_and,
        Classical.not_not] at hz
      by_cases h0 : z = 0
      · simp [h0]
      · simpa using hz h0

/- ===================== Reconciliation invariant (C1) ===================== -/

theorem mem_keys_reconcile (s : MapState) (R : List DiveLog) (z : Nat) (x : String) :
    x ∈ (reconcile s R z).markers.map Prod.fst ↔ x ∈ R.map DiveLog.id := by
  rw [reconcile_markers]
  simpa using mem_keys_addAll [] s.nextHandle R x

/-- Claim C1: for every finite record list R, after `reconcile(R)` the set
of ids having a live marker equals exactly the set of ids occurring in R
— no orphan markers, no missing markers; reconciling the empty list is
valid (the operation is a total function here, it throws nothing) and
clears every live marker. -/
theorem reconcile_marker_ids (s : MapState) (R : List DiveLog) (z : Nat) :
    (∀ x, x ∈ (reconcile s R z).markers.map Prod.fst ↔ x ∈ R.map DiveLog.id) ∧
    (R = [] → (reconcile s R z).markers = []) := by
  constructor
  · exact mem_keys_reconcile s R z
  · rintro rfl
    rw [reconcile_markers]
    rfl

/-- Witness for C1: reconciling `[a, b]` on a fresh map yields live
markers exactly for ids `a` and `b`, and reconciling `[]` afterwards
clears them. -/
theorem reconcile_marker_ids_witness :
    ("a" ∈ (reconcile initialMapState [recA, recB] 10).markers.map Prod.fst) ∧
    ("c" ∉ (reconcile initialMapState [recA, recB] 10).markers.map Prod.fst) ∧
    (reconcile (reconcile initialMapState [recA, recB] 10) [] 10).markers = [] :=
  ⟨((reconcile_marker_ids initialMapState [recA, recB] 10).1 "a").mpr (by decide),
   fun h => by
     have := ((reconcile_marker_ids initialMapState [recA, recB] 10).1 "c").mp h
     simp [recA, recB] at this,
   (reconcile_marker_ids (reconcile initialMapState [recA, recB] 10) [] 10).2 rfl⟩

/- ===================== Selection lemmas ===================== -/

/-- The number of live markers currently rendered in the selected style. -/
def selectedCount (ms : List (String × Marker)) : Nat :=
  (ms.filter fun p => p.2.content.isSelectedStyle).length

theorem isSelectedStyle_createMarkerContent (d : DiveLog) (b : Bool) :
    (createMarkerContent d b).isSelectedStyle = b := by
  cases b <;> simp [createMarkerContent, MarkerVisual.isSelectedStyle]

theorem setSelected_markers (s : MapState) (sel : Option String) :
    (setSelected s sel).markers =
      s.markers.map fun p =>
        (p.1, { p.2 with content := createMarkerContent p.2.record (some p.1 == sel) }) := by
  unfold setSelected
  dsimp only
  split
  · split
    · split <;> rfl
    · rfl
  · rfl

theorem keys_setSelected (s : MapState) (sel : Option String) :
    (setSelected s sel).markers.map Prod.fst = s.markers.map Prod.fst := by
  rw [setSelected_markers, List.map_map]
  rfl

theorem selectedCount_map_content (ms : List (String × Marker)) (sel : Option String) :
    selectedCount (ms.map fun p =>
        (p.1, { p.2 with content := createMarkerContent p.2.record (some p.1 == sel) })) =
      (ms.filter fun p => some p.1 == sel).length := by
  induction ms with
  | nil => rfl
  | cons p rest ih =>
    simp only [List.map_cons, selectedCount, List.filter_cons,
      isSelectedStyle_createMarkerContent] at *
    cases h : (some p.1 == sel) <;> simp [h, ih]

theorem length_filter_key_le : ∀ (ms : List (String × Marker)) (sid : String),
    (ms.map Prod.fst).Nodup → (ms.filter fun p => p.1 == sid).length ≤ 1
  | [], _, _ => by simp
  | (k, v) :: rest, sid, h => by
    simp only [List.map_cons, List.nodup_cons] at h
    by_cases hk : k = sid
    · subst hk
      have hnil : rest.filter (fun p => p.1 == k) = [] := by
        refine List.filter_eq_nil_iff.mpr ?_
        intro p hp
        simp only [beq_iff_eq]
        intro hpk
        exact h.1 (hpk ▸ List.mem_map_of_mem Prod.fst hp)
      simp [List.filter_cons, hnil]
    · simp only [List.filter_cons, beq_iff_eq, if_neg hk]
      exact length_filter_key_le rest sid h.2

theorem selectedCount_setSelected_le (s : MapState) (sel : Option String)
    (h : (s.markers.map Prod.fst).Nodup) :
    selectedCount (setSelected s sel).markers ≤ 1 := by
  rw [setSelected_markers, selectedCount_map_content]
  cases sel with
  | none => simp
  | some sid =>
    have : (s.markers.filter fun p => some p.1 == some sid) =
        s.markers.filter fun p => p.1 == sid := by
      apply List.filter_congr
      intro p _
      simp
    rw [this]
    exact length_filter_key_le s.markers sid h

theorem selectedCount_reconcile (s : MapState) (R : List DiveLog) (z : Nat) :
    selectedCount (reconcile s R z).markers = 0 := by
  rw [reconcile_markers]
  unfold selectedCount
  rw [List.length_eq_zero]
  refine List.filter_eq_nil_iff.mpr ?_
  intro p hp
  have := addAll_content [] s.nextHandle R (by simp) p hp
  rw [this, isSelectedStyle_createMarkerContent]
  simp

theorem foldl_setSelected_inv : ∀ (sels : List (Option String)) (t : MapState),
    (t.markers.map Prod.fst).Nodup → selectedCount t.markers ≤ 1 →
    ((sels.foldl setSelected t).markers.map Prod.fst).Nodup ∧
      selectedCount ((sels.foldl setSelected t).markers) ≤ 1
  | [], _, h1, h2 => ⟨h1, h2⟩
  | sel :: sels, t, h1, h2 => by
    rw [List.foldl_cons]
    exact foldl_setSelected_inv sels (setSelected t sel)
      (by rw [keys_setSelected]; exact h1)
      (selectedCount_setSelected_le t sel h1)

/-- Claim C5: selection exclusivity — starting from any reconciled state,
after any finite sequence of `setSelected` calls at most one live marker
is in the selected visual state. -/
theorem setSelected_exclusive (s : MapState) (R : List DiveLog) (z : Nat)
    (sels : List (Option String)) :
    selectedCount ((sels.foldl setSelected (reconcile s R z)).markers) ≤ 1 := by
  have hnd : ((reconcile s R z).markers.map Prod.fst).Nodup := by
    rw [reconcile_markers]
    exact keys_nodup_addAll [] s.nextHandle R (by simp)
  have h0 : selectedCount (reconcile s R z).markers ≤ 1 := by
    rw [selectedCount_reconcile]
    omega
  exact (foldl_setSelected_inv sels (reconcile s R z) hnd h0).2

/-- Claim C6: for an id absent from the live marker set, `setSelected(id)`
clears the previous selection — every marker (the previously selected one
included) is regenerated in unselected style, so no marker remains
selected — and issues no pan command to the map surface. -/
theorem setSelected_absent_clears (s : MapState) (sid : String)
    (habs : sid ∉ s.markers.map Prod.fst) :
    (∀ p ∈ (setSelected s (some sid)).markers, p.2.content.isSelectedStyle = false) ∧
    (setSelected s (some sid)).commands = s.commands := by
  constructor
  · intro p hp
    rw [setSelected_markers] at hp
    obtain ⟨q, hq, rfl⟩ := List.mem_map.mp hp
    have hne : q.1 ≠ sid := fun h => habs (h ▸ List.mem_map_of_mem Prod.fst hq)
    simp only [isSelectedStyle_createMarkerContent]
    simpa using hne
  · unfold setSelected
    dsimp only
    by_cases ht : idTruthy (some sid) = true
    · rw [if_pos ht]
      have : objGet (s.markers.map fun p =>
          (p.1, { p.2 with
            content := createMarkerContent p.2.record (some p.1 == some sid) })) sid = none := by
        apply objGet_eq_none_of_not_mem
        rw [List.map_map]
        simpa using habs
      rw [this]
    · rw [if_neg ht]

/-- Witness for C6 at the spec's example: on a map holding only marker
`b` with `b` selected, selecting the absent id `a` leaves no marker in
selected style and issues no new surface command. -/
theorem setSelected_absent_clears_witness :
    (∀ p ∈ (setSelected (setSelected (reconcile initialMapState [recB] 10) (some "b"))
        (some "a")).markers, p.2.content.isSelectedStyle = false) ∧
    (setSelected (setSelected (reconcile initialMapState [recB] 10) (some "b"))
        (some "a")).commands =
      (setSelected (reconcile initialMapState [recB] 10) (some "b")).commands :=
  setSelected_absent_clears
    (setSelected (reconcile initialMapState [recB] 10) (some "b")) "a" (by decide)

/- ===================== Viewport framing (C7) ===================== -/

/-- Claim C7: for every non-empty record list, `reconcile` asks the map
surface to frame a bounding region covering every record's coordinates,
and the resulting zoom never exceeds the configured maximum of 15,
whatever zoom `fitBounds` produces (in particular when all points
coincide). -/
theorem reconcile_frames (s : MapState) (R : List DiveLog) (z : Nat) (hR : R ≠ []) :
    ∃ b, createBounds (R.map fun d => Location.mk d.location.lat d.location.lng) = some b ∧
      MapCmd.fitBounds b ∈ (reconcile s R z).commands ∧
      (∀ d ∈ R, b.covers { lat := d.location.lat, lng := d.location.lng }) ∧
      (reconcile s R z).zoom ≤ 15 := by
  obtain ⟨b, hb, hcov, hcmd, hzoom⟩ := reconcile_spec_of_ne_nil s R z hR
  refine ⟨b, hb, ?_, hcov, hzoom⟩
  rw [hcmd]
  simp

/-- Witness for C7: reconciling `[a, b]` with an SDK zoom of 20 issues a
fitBounds command whose region covers both records and clamps the zoom
to at most 15. -/
theorem reconcile_frames_witness :
    ∃ b, createBounds ([recA, recB].map fun d =>
        Location.mk d.location.lat d.location.lng) = some b ∧
      MapCmd.fitBounds b ∈ (reconcile initialMapState [recA, recB] 20).commands ∧
      (∀ d ∈ [recA, recB], b.covers { lat := d.location.lat, lng := d.location.lng }) ∧
      (reconcile initialMapState [recA, recB] 20).zoom ≤ 15 :=
  reconcile_frames initialMapState [recA, recB] 20 (by decide)

/- ===================== Marker churn across reconciles (C2, C3) ===================== -/

theorem reconcile_handle_bounds (s : MapState) (R : List DiveLog) (z : Nat) :
    ∀ p ∈ (reconcile s R z).markers,
      s.nextHandle ≤ p.2.handle ∧ p.2.handle < s.nextHandle + R.length := by
  intro p hp
  rw [reconcile_markers] at hp
  rcases mem_addAll_elim [] s.nextHandle R p hp with h1 | h1
  · simp at h1
  · obtain ⟨i, hi, d, _, hpd⟩ := h1
    rw [hpd]
    simp only [createMarker]
    omega

/-- Counterexample to C2 as stated: after `reconcile([a, b])` followed by
`reconcile([b])`, the live marker for `b` is not the marker object the
first call created — the second call destroyed it and created a fresh
one. -/
theorem reconcile_untouched_counterexample :
    objGet (reconcile (reconcile initialMapState [recA, recB] 10) [recB] 10).markers "b" ≠
      objGet (reconcile initialMapState [recA, recB] 10).markers "b" := by decide

/-- Claim C2 amended: for two consecutive reconcile calls whose record
lists both contain an id x, the second call still ends with a live
marker for x, but that marker is destroyed and recreated rather than
left untouched — the surviving marker is a strictly fresher object than
the one the first call produced — while every id absent from the second
list (such as `a` in the spec's example) has its marker destroyed with
no replacement. -/
theorem reconcile_recreates_shared_ids (s : MapState) (R1 R2 : List DiveLog)
    (z1 z2 : Nat) (x : String)
    (h1 : x ∈ R1.map DiveLog.id) (h2 : x ∈ R2.map DiveLog.id) :
    ∃ m1 m2,
      objGet (reconcile s R1 z1).markers x = some m1 ∧
      objGet (reconcile (reconcile s R1 z1) R2 z2).markers x = some m2 ∧
      m1.handle < m2.handle ∧
      (∀ y, y ∉ R2.map DiveLog.id →
        objGet (reconcile (reconcile s R1 z1) R2 z2).markers y = none) := by
  obtain ⟨m1, hm1⟩ := objGet_isSome_of_mem_keys _ x ((mem_keys_reconcile s R1 z1 x).mpr h1)
  obtain ⟨m2, hm2⟩ := objGet_isSome_of_mem_keys _ x
    ((mem_keys_reconcile (reconcile s R1 z1) R2 z2 x).mpr h2)
  refine ⟨m1, m2, hm1, hm2, ?_, ?_⟩
  · have hb1 := reconcile_handle_bounds s R1 z1 (x, m1) (objGet_mem _ x m1 hm1)
    have hb2 := reconcile_handle_bounds (reconcile s R1 z1) R2 z2 (x, m2)
      (objGet_mem _ x m2 hm2)
    have hnext := reconcile_nextHandle s R1 z1
    simp only at hb1 hb2
    omega
  · intro y hy
    exact objGet_eq_none_of_not_mem _ y
      (fun hmem => hy ((mem_keys_reconcile (reconcile s R1 z1) R2 z2 y).mp hmem))

/-- Witness for the amended C2 at the spec's example: after
`reconcile([a, b])` then `reconcile([b])`, marker `b` is live but fresh,
and marker `a` is gone. -/
theorem reconcile_recreates_shared_ids_witness :
    ∃ m1 m2,
      objGet (reconcile initialMapState [recA, recB] 10).markers "b" = some m1 ∧
      objGet (reconcile (reconcile initialMapState [recA, recB] 10) [recB] 10).markers "b"
        = some m2 ∧
      m1.handle < m2.handle ∧
      (∀ y, y ∉ [recB].map DiveLog.id →
        objGet (reconcile (reconcile initialMapState [recA, recB] 10) [recB] 10).markers y
          = none) :=
  reconcile_recreates_shared_ids initialMapState [recA, recB] [recB] 10 10 "b"
    (by decide) (by decide)

/-- Counterexample to C3 as stated: calling `reconcile([b])` twice in a
row is not a no-op on the marker set — the second call advances the
marker-creation counter (it creates one marker, not zero) and replaces
the marker object for `b`. -/
theorem reconcile_noop_counterexample :
    (reconcile (reconcile initialMapState [recB] 10) [recB] 10).nextHandle ≠
      (reconcile initialMapState [recB] 10).nextHandle ∧
    (reconcile (reconcile initialMapState [recB] 10) [recB] 10).markers ≠
      (reconcile initialMapState [recB] 10).markers := by decide

/-- Claim C3 amended: `reconcile(R); reconcile(R)` yields the same live
marker id set as a single call and re-issues the viewport framing
command, but the second call is not a no-op on the marker set: it
destroys and recreates every marker, creating exactly `R.length` new
markers rather than zero. -/
theorem reconcile_idempotent_on_ids (s : MapState) (R : List DiveLog) (z1 z2 : Nat) :
    (∀ x, x ∈ (reconcile (reconcile s R z1) R z2).markers.map Prod.fst ↔
        x ∈ (reconcile s R z1).markers.map Prod.fst) ∧
    (reconcile (reconcile s R z1) R z2).nextHandle =
      (reconcile s R z1).nextHandle + R.length ∧
    (R ≠ [] → ∃ b,
        (reconcile (reconcile s R z1) R z2).commands =
          (reconcile s R z1).commands ++ MapCmd.fitBounds b ::
            (if z2 != 0 && z2 > 15 then [MapCmd.setZoom 15] else [])) := by
  refine ⟨?_, reconcile_nextHandle (reconcile s R z1) R z2, ?_⟩
  · intro x
    rw [mem_keys_reconcile, mem_keys_reconcile]
  · intro hR
    obtain ⟨b, _, _, hcmd, _⟩ := reconcile_spec_of_ne_nil (reconcile s R z1) R z2 hR
    exact ⟨b, hcmd⟩

/-- Witness for the amended C3 at `R = [b]`: the id set is unchanged, the
counter advances by one, and a fresh framing command is appended. -/
theorem reconcile_idempotent_on_ids_witness :
    (∀ x, x ∈ (reconcile (reconcile initialMapState [recB] 10) [recB] 10).markers.map
        Prod.fst ↔ x ∈ (reconcile initialMapState [recB] 10).markers.map Prod.fst) ∧
    (reconcile (reconcile initialMapState [recB] 10) [recB] 10).nextHandle =
      (reconcile initialMapState [recB] 10).nextHandle + 1 ∧
    ([recB] ≠ ([] : List DiveLog) → ∃ b,
        (reconcile (reconcile initialMapState [recB] 10) [recB] 10).commands =
          (reconcile initialMapState [recB] 10).commands ++ MapCmd.fitBounds b ::
            (if (10 : Nat) != 0 && (10 : Nat) > 15 then [MapCmd.setZoom 15] else [])) :=
  reconcile_idempotent_on_ids initialMapState [recB] 10 10

/- ===================== Cascade delete (C8) ===================== -/

theorem deletePhotos_spec : ∀ (ps : List DivePhoto) (b : Backend),
    b.blobs.Nodup → (ps.map DivePhoto.id).Nodup → (∀ p ∈ ps, p.id ∈ b.blobs) →
    ∃ b', deletePhotos b ps = Except.ok b' ∧ b'.docs = b.docs ∧ b'.blobs.Nodup ∧
      (∀ p ∈ ps, p.id ∉ b'.blobs) ∧ (∀ i ∈ b'.blobs, i ∈ b.blobs)
  | [], b, hnd, _, _ => ⟨b, rfl, rfl, hnd, by simp, fun _ h => h⟩
  | p :: ps, b, hnd, hids, hpresent => by
    have hp : p.id ∈ b.blobs := hpresent p (List.mem_cons_self _ _)
    simp only [List.map_cons, List.nodup_cons] at hids
    have step : deletePhoto b p.id = Except.ok { b with blobs := b.blobs.erase p.id } := by
      rw [deletePhoto, if_pos hp]
    obtain ⟨b', hok, hdocs, hnd', habs, hsub⟩ :=
      deletePhotos_spec ps { b with blobs := b.blobs.erase p.id }
        (hnd.erase p.id)
        hids.2
        (fun q hq => by
          have hq1 : q.id ∈ b.blobs := hpresent q (List.mem_cons_of_mem _ hq)
          have hq2 : q.id ≠ p.id := fun h => hids.1 (h ▸ List.mem_map_of_mem DivePhoto.id hq)
          exact (List.mem_erase_of_ne hq2).mpr hq1)
    refine ⟨b', ?_, hdocs, hnd', ?_, ?_⟩
    · rw [deletePhotos, step]
      exact hok
    · intro q hq
      rcases List.mem_cons.mp hq with rfl | hq
      · intro hmem
        exact (hnd.mem_erase_iff.mp (hsub _ hmem)).1 rfl
      · exact habs q hq
    · intro i hi
      exact List.erase_subset _ _ (hsub i hi)

/-- Claim C8: for an existing dive log id (in a well-formed backend:
distinct blob ids, distinct photo ids within the record, and every
photo's blob present in storage), `deleteDiveLog(id)` succeeds, deleting
the blob of every photo of the record from storage before the record
document is deleted; a record with no photos results in only the
document being deleted, storage untouched. -/
theorem deleteDiveLog_spec (b : Backend) (id : String) (d : DiveLog)
    (hdoc : objGetDoc b.docs id = some d)
    (hblobs : b.blobs.Nodup) (hids : (d.photos.map DivePhoto.id).Nodup)
    (hpresent : ∀ p ∈ d.photos, p.id ∈ b.blobs) :
    ∃ b', deleteDiveLog b id = Except.ok b' ∧
      (∀ p ∈ d.photos, p.id ∉ b'.blobs) ∧
      (∀ q ∈ b'.docs, q.1 ≠ id) ∧
      (d.photos = [] → b'.blobs = b.blobs) := by
  cases hph : d.photos with
  | nil =>
    refine ⟨deleteDoc b id, ?_, by simp [hph], ?_, fun _ => rfl⟩
    · simp [deleteDiveLog, hdoc, hph]
    · intro q hq
      have := List.of_mem_filter hq
      simpa using this
  | cons p ps =>
    obtain ⟨b2, hok, hdocs2, _, habs, _⟩ :=
      deletePhotos_spec d.photos b hblobs hids hpresent
    refine ⟨deleteDoc b2 id, ?_, ?_, ?_, by simp [hph]⟩
    · simp only [deleteDiveLog, hdoc]
      rw [if_pos (by simp [hph]), hok]
    · intro q hq
      exact habs q (by rw [hph]; exact hq)
    · intro q hq
      have := List.of_mem_filter hq
      simpa using this

/-- Witness for C8: deleting the record `b` (one photo, blob `p1`
present) removes blob `p1` and the document; deleting the photoless
record `a` removes only its document. -/
theorem deleteDiveLog_spec_witness :
    (∃ b', deleteDiveLog { docs := [("b", recB)], blobs := ["p1"] } "b" = Except.ok b' ∧
      (∀ p ∈ recB.photos, p.id ∉ b'.blobs) ∧
      (∀ q ∈ b'.docs, q.1 ≠ "b") ∧
      (recB.photos = [] → b'.blobs = ["p1"])) ∧
    (∃ b', deleteDiveLog { docs := [("a", recA)], blobs := ["p1"] } "a" = Except.ok b' ∧
      (∀ p ∈ recA.photos, p.id ∉ b'.blobs) ∧
      (∀ q ∈ b'.docs, q.1 ≠ "a") ∧
      (recA.photos = [] → b'.blobs = ["p1"])) :=
  ⟨deleteDiveLog_spec _ "b" recB (by decide) (by decide) (by decide) (by decide),
   deleteDiveLog_spec _ "a" recA (by decide) (by decide) (by decide) (by decide)⟩
